import Mathlib

set_option maxRecDepth 4000

/-!
Verification development for the ingest pipeline of the rag-chat-website
repository (services/ingest).  The JavaScript source is embedded shallowly:

* `splitWs`, `chunkSlicesFuel`, `chunkText` embed `chunkText` from
  `src/services/ingest/helper.js` (lines 59-77), including the exact
  semantics of JavaScript `text.split(/\s+/)` (which yields `[""]` on the
  empty string and empty boundary elements around leading/trailing
  whitespace), the `Math.max(0, i - overlapWords)` window start, and the
  `i += wordsPerChunk - overlapWords` cursor advance.  The loop is embedded
  with explicit fuel because the source loop does not terminate when
  `overlapWords >= wordsPerChunk`.
* `parseDocumentText` embeds the dispatch / fallback structure of
  `parseDocumentText` (helper.js lines 35-57); the external XML/JSON/CSV
  parsers are oracle functions supplied in `Env`.
* `upsertPgVectors` embeds `upsertPgVectors` (helper.js lines 118-139):
  the BEGIN / per-row upsert / COMMIT / ROLLBACK protocol against a table
  whose `vector(DIM)` column rejects rows of the wrong backend dimension.
* `processResource` / `processBatch` embed `processResource` and the
  resource loop of `processOpenCanada` from `src/unnamed/part_000`
  (the pgvector variant; the Pinecone variant in
  `src/services/ingest/index.js` has the identical checksum/sink ordering).
  Network effects (download, embedding provider, graph store) are oracle
  functions in `Env`; the sha256 digest is an abstract digest function
  `Env.hash`.  Presentation-only chunk fields (citation label, token
  estimate) that no claim observes are elided.
-/

/-! ## Whitespace and string helpers -/

/-- Character class of the JavaScript regex `\s` (ECMAScript WhiteSpace and
LineTerminator productions), used by `text.split(/\s+/)`, `String.trim` and
`replace(/\s+/g, " ")` in helper.js. -/
def isWs (c : Char) : Bool :=
  c = ' ' || c = '\t' || c = '\n' || c = '\r' || c = '\x0b' || c = '\x0c' ||
  c = '\u00A0' || c = '\u1680' || ('\u2000' ≤ c && c ≤ '\u200A') ||
  c = '\u2028' || c = '\u2029' || c = '\u202F' || c = '\u205F' ||
  c = '\u3000' || c = '\uFEFF'

/-- Worker for `splitWs`.  `cur` is the reversed current word, the flag is
true while scanning inside a whitespace separator run.  Mirrors JavaScript
`String.prototype.split(/\s+/)`: a separator at the very end contributes a
trailing empty element, and the empty string yields `[""]`. -/
def splitWsGo : List Char → List Char → Bool → List String
  | [], cur, false => [String.mk cur.reverse]
  | [], _, true => [""]
  | c :: cs, cur, false =>
    if isWs c then String.mk cur.reverse :: splitWsGo cs [] true
    else splitWsGo cs (c :: cur) false
  | c :: cs, cur, true =>
    if isWs c then splitWsGo cs cur true
    else splitWsGo cs [c] false

/-- JavaScript `text.split(/\s+/)` from `chunkText` in helper.js. -/
def splitWs (s : String) : List String :=
  splitWsGo s.data [] false

/-- Worker for `collapseWsStr`: JavaScript `replace(/\s+/g, " ")`.  The flag
records whether the previous character belonged to a whitespace run whose
replacement space was already emitted. -/
def collapseWsGo : List Char → Bool → List Char
  | [], _ => []
  | c :: cs, inRun =>
    if isWs c then
      if inRun then collapseWsGo cs true else ' ' :: collapseWsGo cs true
    else c :: collapseWsGo cs false

/-- JavaScript `s.replace(/\s+/g, " ")` used for chunk summaries. -/
def collapseWsStr (s : String) : String :=
  String.mk (collapseWsGo s.data false)

/-- JavaScript `String.prototype.trim` applied to the joined chunk text. -/
def trimWs (s : String) : String :=
  String.mk (((s.data.dropWhile isWs).reverse.dropWhile isWs).reverse)

/-- Helper for `containsSub`: does the second list start with the first? -/
def listStartsWith : List Char → List Char → Bool
  | [], _ => true
  | _ :: _, [] => false
  | a :: as, b :: bs => a = b && listStartsWith as bs

/-- Substring occurrence test on character lists (haystack, needle). -/
def containsSub : List Char → List Char → Bool
  | [], needle => needle.isEmpty
  | c :: cs, needle => listStartsWith needle (c :: cs) || containsSub cs needle

/-- JavaScript `haystack.includes(needle)` used by `parseDocumentText`'s
mime-type dispatch. -/
def strContains (s sub : String) : Bool :=
  containsSub s.data sub.data

/-- JavaScript `.replace(/[^\w.-]/g, "_")` used to build the safe resource
file name in `processResource`. -/
def sanitize (s : String) : String :=
  String.mk (s.data.map fun c =>
    if c.isAlphanum || c = '_' || c = '.' || c = '-' then c else '_')

/-! ## Chunker -/

/-- One element of the list returned by `chunkText` in helper.js:
`{ chunkIndex, text, summary }`. -/
structure Chunk where
  chunkIndex : Nat
  text : String
  summary : String
deriving DecidableEq

/-- The loop of `chunkText` (helper.js lines 62-76), with explicit fuel
because the source `while` loop does not terminate when
`overlapWords >= wordsPerChunk` (the cursor step `W - O` is then `≤ 0`).
Each emitted pair is the running chunk index together with the word slice
`words.slice(Math.max(0, i - overlapWords), Math.max(0, i - overlapWords)
+ wordsPerChunk)`; truncated `Nat` subtraction `i - O` is exactly
`Math.max(0, i - O)`.  `none` means the fuel ran out before the loop
finished. -/
def chunkSlicesFuel : Nat → List String → Nat → Nat → Nat → Nat →
    Option (List (Nat × List String))
  | 0, _, _, _, _, _ => none
  | fuel + 1, words, W, O, i, idx =>
    if i < words.length then
      match chunkSlicesFuel fuel words W O (i + (W - O)) (idx + 1) with
      | none => none
      | some rest => some ((idx, (words.drop (i - O)).take W) :: rest)
    else some []

/-- The chunk slices produced by one run of the `chunkText` loop.  Fuel
`words.length + 1` is sufficient whenever `O < W` (proved below), so in the
terminating regime this is exactly the source loop's output. -/
def chunkSlices (words : List String) (W O : Nat) : List (Nat × List String) :=
  (chunkSlicesFuel (words.length + 1) words W O 0 0).getD []

/-- Packaging of one slice into the chunk record pushed by the source loop:
`text = slice.join(" ").trim()` and
`summary = text.slice(0, 300).replace(/\s+/g, " ")`. -/
def mkChunk (p : Nat × List String) : Chunk :=
  ⟨p.1, trimWs (String.intercalate " " p.2),
    collapseWsStr
      (String.mk ((trimWs (String.intercalate " " p.2)).data.take 300))⟩

/-- `chunkText(text, wordsPerChunk, overlapWords)` from helper.js. -/
def chunkText (text : String) (wordsPerChunk overlapWords : Nat) : List Chunk :=
  (chunkSlices (splitWs text) wordsPerChunk overlapWords).map mkChunk

/-- Reference recursion for the chunk loop in the terminating regime
(`O < W`): identical body, recursing on the strictly increasing cursor.
Proved equal to the fuel semantics below. -/
def chunksFrom (words : List String) (W O i idx : Nat) :
    List (Nat × List String) :=
  if O < W ∧ i < words.length then
    (idx, (words.drop (i - O)).take W) ::
      chunksFrom words W O (i + (W - O)) (idx + 1)
  else []
termination_by words.length - i
decreasing_by omega

/-- Divergence of the source loop, observable through the fuel semantics:
no amount of fuel finishes the loop. -/
def chunkLoopDiverges (text : String) (W O : Nat) : Prop :=
  ∀ fuel idx, chunkSlicesFuel fuel (splitWs text) W O 0 idx = none

/-- Last `n` elements of a list (the "last `O` words" of a chunk slice). -/
def lastN (n : Nat) (l : List α) : List α :=
  l.drop (l.length - n)

/-- Slice component of the `k`-th emitted chunk of a slice list. -/
def sliceOf (cs : List (Nat × List String)) (k : Nat) : List String :=
  (cs.getD k (0, [])).2

/-! ## Normalizer (parseDocumentText) -/

deriving instance DecidableEq for Except

/-- Success test for `Except` results. -/
def isOkE : Except ε α → Bool
  | .ok _ => true
  | .error _ => false

/-- Dispatch condition of the markup branch of `parseDocumentText`:
`mime.includes("xml") || url.endsWith(".xml")`. -/
def xmlCond (mime url : String) : Bool :=
  strContains mime "xml" || url.endsWith ".xml"

/-- Dispatch condition of the structured-record branch:
`mime.includes("json") || url.endsWith(".json")`. -/
def jsonCond (mime url : String) : Bool :=
  strContains mime "json" || url.endsWith ".json"

/-- Dispatch condition of the tabular branch:
`mime.includes("csv") || url.endsWith(".csv") || url.endsWith(".tsv")`. -/
def csvCond (mime url : String) : Bool :=
  strContains mime "csv" || url.endsWith ".csv" || url.endsWith ".tsv"

/-- External collaborators of the pipeline, as result oracles.  `xmlParse`,
`jsonParse`, `csvParse` model parse-and-serialize of the external parser
libraries (`.error` = the parser threw).  `fetch` models
`downloadToString`; `embed` models `createOpenAIEmbedding` keyed by
resource key and call index (embedding values are abstracted to integer
lists, only their length is ever observed); `neoRun` models the graph
session operations of `createNeo4jNodes` for one document; `hash` models
`checksumString` (sha256 hex).  `W`, `O`, `VDIM` are the `CHUNK_WORDS`,
`OVERLAP_WORDS` and `VECTOR_DIM` configuration values, and `backendDim` is
the dimension of the `vector(DIM)` column of the backing table. -/
structure Env where
  hash : String → String
  fetch : String → Except String String
  xmlParse : String → Except String String
  jsonParse : String → Except String String
  csvParse : String → Except String String
  embed : String → Nat → Except String (List Int)
  pgConfigured : Bool
  neoConfigured : Bool
  neoRun : String → Except String Unit
  backendDim : Nat
  W : Nat
  O : Nat
  VDIM : Nat

/-- `parseDocumentText(raw, mime, url)` from helper.js lines 35-57.  The
markup branch parses and returns with **no** try/catch, so a parser error
propagates; the JSON and CSV branches wrap their bodies in
`try { ... } catch (e) {}` and fall through on failure; the final statement
returns the raw text verbatim. -/
def parseDocumentText (env : Env) (raw mime url : String) :
    Except String String :=
  if xmlCond mime url then
    env.xmlParse raw
  else
    match (if jsonCond mime url then
            match env.jsonParse raw with
            | .ok t => some t
            | .error _ => none
          else none) with
    | some t => .ok t
    | none =>
      match (if csvCond mime url then
              match env.csvParse raw with
              | .ok t => some t
              | .error _ => none
            else none) with
      | some t => .ok t
      | none => .ok raw

/-! ## Vector sink (Postgres + pgvector) -/

/-- One vector record handed to the vector sink:
`{ id, embedding }` (the jsonb metadata is never observed by a claim). -/
structure Vec where
  id : String
  embedding : List Int
deriving DecidableEq

/-- The `vectors` table: rows `id → embedding` (`id` is the primary key). -/
structure PgState where
  committed : List (String × List Int)
deriving DecidableEq

/-- Effect of one `INSERT ... ON CONFLICT (id) DO UPDATE` row on the table
contents: replace the row with the same id, else append. -/
def applyUpsert (rows : List (String × List Int)) (v : Vec) :
    List (String × List Int) :=
  match rows with
  | [] => [(v.id, v.embedding)]
  | r :: rs =>
    if r.1 = v.id then (v.id, v.embedding) :: rs else r :: applyUpsert rs v

/-- The insert loop of `upsertPgVectors` run inside the transaction: each
row insert is accepted by the backing store only when the embedding length
equals the `vector(DIM)` column dimension, otherwise the statement errors
(which the source propagates to its catch block). -/
def pgInsertLoop (backendDim : Nat) (rows : List (String × List Int)) :
    List Vec → Except String (List (String × List Int))
  | [] => .ok rows
  | v :: vs =>
    if v.embedding.length = backendDim then
      pgInsertLoop backendDim (applyUpsert rows v) vs
    else .error "vector dimension mismatch"

/-- `upsertPgVectors(pgClient, vectors, dimension)` from helper.js lines
118-139.  The empty batch returns immediately with no query.  Otherwise:
`BEGIN`, the per-row upsert loop, then `COMMIT`; on any error the source
issues `ROLLBACK` (restoring the pre-call table) and rethrows.  Note the
`dimension` parameter is bound but never read by the source body. -/
def upsertPgVectors (backendDim : Nat) (vectors : List Vec)
    (dimension : Nat) (pg : PgState) : Except String Unit × PgState :=
  if vectors.length = 0 then (.ok (), pg)
  else
    match pgInsertLoop backendDim pg.committed vectors with
    | .ok rows => (.ok (), ⟨rows⟩)
    | .error e => (.error e, ⟨pg.committed⟩)

/-! ## Graph sink, checksum store, pipeline state -/

/-- `createNeo4jNodes` observed at the document level: on success a fresh
`(doc_id, chunk count)` document subtree is appended (Document/Chunk nodes
are always `CREATE`d, never merged); a session failure propagates. -/
def createNeo4jNodes (env : Env) (docId : String) (numChunks : Nat)
    (g : List (String × Nat)) : Except String (List (String × Nat)) :=
  match env.neoRun docId with
  | .ok _ => .ok (g ++ [(docId, numChunks)])
  | .error e => .error e

/-- Overwrite-or-create for the per-key digest files (`fs.writeFile` on
`<safeName>.raw.sha256`): replace the record for the key, else append. -/
def assocPut (l : List (String × String)) (k v : String) :
    List (String × String) :=
  match l with
  | [] => [(k, v)]
  | p :: ps => if p.1 = k then (k, v) :: ps else p :: assocPut ps k v

/-- The persistent and observable state threaded through resource
processing: the checksum store (digest file per resource key), the vector
table, the created graph documents, and a counter of embedding-provider
calls. -/
structure PipelineState where
  checksums : List (String × String)
  pg : PgState
  graph : List (String × Nat)
  embedCalls : Nat
deriving DecidableEq

/-- Per-resource outcome of `processResource`: `{skipped:true}`,
`{ok:true, doc_id, chunks}` or `{ok:false, error}`. -/
inductive Result where
  | skippedRes
  | okRes (docId : String) (chunks : Nat)
  | errRes (e : String)
deriving DecidableEq

/-- The embedding loop of `processResource`: one sequential provider call
per chunk; the first failure aborts (the thrown error reaches the outer
catch).  Returns the vectors built so far paired with the number of
provider calls issued. -/
def embedLoop (f : Nat → Except String (List Int)) (idBase : String) :
    List Chunk → Except String (List Vec) × Nat
  | [] => (.ok [], 0)
  | c :: rest =>
    match f c.chunkIndex with
    | .error e => (.error e, 1)
    | .ok emb =>
      match embedLoop f idBase rest with
      | (.error e, n) => (.error e, n + 1)
      | (.ok vs, n) =>
        (.ok (⟨idBase ++ ":chunk:" ++ toString c.chunkIndex, emb⟩ :: vs),
          n + 1)

/-- `processResource(sourceKey, datasetId, datasetMeta, resource)` from
`src/unnamed/part_000` lines 93-180, with the download, parser, embedder
and graph effects taken from `Env` and the persistent stores threaded
explicitly.  Order of operations is exactly the source's: empty-url skip;
download; digest; change check against the stored digest (skip on equal);
write raw file and **digest record**; normalize; chunk; sequential
embeddings; vector upsert (when configured); graph creation (when
configured); success result.  Any thrown error is caught at the end and
returned as `errRes`, keeping all state changes made up to that point. -/
def processResource (env : Env) (datasetId resourceId fmt url : String)
    (st : PipelineState) : Result × PipelineState :=
  if url = "" then (.skippedRes, st)
  else
    match env.fetch url with
    | .error e => (.errRes e, st)
    | .ok raw =>
      let checksum := env.hash raw
      let safeName := sanitize (datasetId ++ "__" ++ resourceId)
      if List.lookup safeName st.checksums = some checksum then
        (.skippedRes, st)
      else
        let st1 : PipelineState :=
          ⟨assocPut st.checksums safeName checksum, st.pg, st.graph,
            st.embedCalls⟩
        match parseDocumentText env raw fmt url with
        | .error e => (.errRes e, st1)
        | .ok text =>
          let chunks := chunkText text env.W env.O
          let docId := datasetId ++ ":" ++ resourceId
          match embedLoop (env.embed safeName) docId chunks with
          | (.error e, n) =>
            (.errRes e, ⟨st1.checksums, st1.pg, st1.graph,
              st1.embedCalls + n⟩)
          | (.ok vecs, n) =>
            let st2 : PipelineState :=
              ⟨st1.checksums, st1.pg, st1.graph, st1.embedCalls + n⟩
            match (if env.pgConfigured then
                    upsertPgVectors env.backendDim vecs env.VDIM st2.pg
                  else (.ok (), st2.pg)) with
            | (.error e, pg2) =>
              (.errRes e, ⟨st2.checksums, pg2, st2.graph, st2.embedCalls⟩)
            | (.ok _, pg2) =>
              let st3 : PipelineState :=
                ⟨st2.checksums, pg2, st2.graph, st2.embedCalls⟩
              match (if env.neoConfigured then
                      createNeo4jNodes env docId chunks.length st3.graph
                    else .ok st3.graph) with
              | .error e => (.errRes e, st3)
              | .ok g2 =>
                (.okRes docId chunks.length,
                  ⟨st3.checksums, st3.pg, g2, st3.embedCalls⟩)

/-- One resource descriptor of the batch loop: dataset id, resource id,
format and url. -/
structure ResourceDesc where
  datasetId : String
  resourceId : String
  fmt : String
  url : String

/-- The resource loop of `processOpenCanada`: every resource is processed
and its result collected regardless of earlier resources' outcomes. -/
def processBatch (env : Env) (resources : List ResourceDesc)
    (st : PipelineState) : List Result × PipelineState :=
  match resources with
  | [] => ([], st)
  | r :: rest =>
    match processResource env r.datasetId r.resourceId r.fmt r.url st with
    | (res1, st1) =>
      match processBatch env rest st1 with
      | (resRest, st2) => (res1 :: resRest, st2)

/-- Constructor for concrete environments used to evaluate the pipeline on
explicit inputs: the digest function is the identity (any digest function
only ever has its outputs compared for equality here), and every oracle
ignores its argument, returning the fixed result supplied. -/
def mkEnv (fetchR xmlR jsonR csvR : Except String String)
    (embedR : Nat → Except String (List Int)) (pgOn neoOn : Bool)
    (neoR : Except String Unit) (bd wc oc vd : Nat) : Env :=
  ⟨fun s => s, fun _ => fetchR, fun _ => xmlR, fun _ => jsonR,
    fun _ => csvR, fun _ => embedR, pgOn, neoOn, fun _ => neoR,
    bd, wc, oc, vd⟩

/-! ## Lemmas about the chunk loop -/

theorem splitWsGo_ne_nil : ∀ (l cur : List Char) (m : Bool),
    splitWsGo l cur m ≠ [] := by
  intro l
  induction l with
  | nil => intro cur m; cases m <;> simp [splitWsGo]
  | cons c cs ih =>
    intro cur m
    cases m <;> simp only [splitWsGo] <;> split
    · simp
    · exact ih _ _
    · exact ih _ _
    · exact ih _ _

theorem splitWs_ne_nil (s : String) : splitWs s ≠ [] :=
  splitWsGo_ne_nil s.data [] false

theorem chunkSlicesFuel_eq_chunksFrom (words : List String) (W O : Nat)
    (h : O < W) :
    ∀ (fuel i idx : Nat), words.length - i < fuel →
      chunkSlicesFuel fuel words W O i idx = some (chunksFrom words W O i idx) := by
  intro fuel
  induction fuel with
  | zero => intro i idx hf; omega
  | succ f ih =>
    intro i idx hf
    by_cases hi : i < words.length
    · have hrec := ih (i + (W - O)) (idx + 1) (by omega)
      simp only [chunkSlicesFuel, if_pos hi, hrec]
      conv_rhs => rw [chunksFrom.eq_def]
      rw [if_pos ⟨h, hi⟩]
    · simp only [chunkSlicesFuel, if_neg hi]
      rw [chunksFrom.eq_def]
      rw [if_neg (by intro hc; exact hi hc.2)]

theorem chunkSlices_eq (words : List String) (W O : Nat) (h : O < W) :
    chunkSlices words W O = chunksFrom words W O 0 0 := by
  unfold chunkSlices
  rw [chunkSlicesFuel_eq_chunksFrom words W O h (words.length + 1) 0 0 (by omega)]
  rfl

theorem chunkSlicesFuel_none (words : List String) (W O : Nat) (h : W ≤ O) :
    ∀ (fuel i idx : Nat), i < words.length →
      chunkSlicesFuel fuel words W O i idx = none := by
  intro fuel
  induction fuel with
  | zero => intro i idx _; rfl
  | succ f ih =>
    intro i idx hi
    have hWO : W - O = 0 := by omega
    simp only [chunkSlicesFuel, if_pos hi, hWO, Nat.add_zero]
    rw [ih i (idx + 1) hi]

theorem chunksFrom_length_iff (words : List String) (W O i idx k : Nat)
    (h : O < W) :
    k < (chunksFrom words W O i idx).length ↔
      i + k * (W - O) < words.length := by
  rw [chunksFrom.eq_def]
  by_cases hi : i < words.length
  · rw [if_pos ⟨h, hi⟩]
    cases k with
    | zero => simpa using hi
    | succ k' =>
      have := chunksFrom_length_iff words W O (i + (W - O)) (idx + 1) k' h
      simp only [List.length_cons]
      constructor
      · intro hk
        have := this.1 (by omega)
        have hmul : (k' + 1) * (W - O) = k' * (W - O) + (W - O) :=
          Nat.succ_mul _ _
        omega
      · intro hk
        have hmul : (k' + 1) * (W - O) = k' * (W - O) + (W - O) :=
          Nat.succ_mul _ _
        have := this.2 (by omega)
        omega
  · rw [if_neg (by intro hc; exact hi hc.2)]
    simp only [List.length_nil]
    constructor
    · omega
    · intro hk
      exact absurd (by omega : i < words.length) hi
termination_by words.length - i
decreasing_by omega

theorem chunksFrom_getD (words : List String) (W O i idx k : Nat)
    (h : O < W) (hk : k < (chunksFrom words W O i idx).length) :
    (chunksFrom words W O i idx).getD k (0, []) =
      (idx + k, (words.drop (i + k * (W - O) - O)).take W) := by
  rw [chunksFrom.eq_def] at hk ⊢
  by_cases hi : i < words.length
  · rw [if_pos ⟨h, hi⟩] at hk ⊢
    cases k with
    | zero => simp
    | succ k' =>
      have hk' : k' < (chunksFrom words W O (i + (W - O)) (idx + 1)).length := by
        simpa using hk
      have hrec := chunksFrom_getD words W O (i + (W - O)) (idx + 1) k' h hk'
      simp only [List.getD_cons_succ, hrec]
      have h1 : idx + 1 + k' = idx + (k' + 1) := by omega
      have h2 : i + (W - O) + k' * (W - O) = i + (k' + 1) * (W - O) := by
        have : (k' + 1) * (W - O) = k' * (W - O) + (W - O) := Nat.succ_mul _ _
        omega
      rw [h1, h2]
  · rw [if_neg (by intro hc; exact hi hc.2)] at hk
    simp at hk
termination_by words.length - i
decreasing_by omega

theorem chunksFrom_map_fst (words : List String) (W O i idx : Nat)
    (h : O < W) :
    (chunksFrom words W O i idx).map Prod.fst =
      List.range' idx (chunksFrom words W O i idx).length := by
  rw [chunksFrom.eq_def]
  by_cases hi : i < words.length
  · rw [if_pos ⟨h, hi⟩]
    have hrec := chunksFrom_map_fst words W O (i + (W - O)) (idx + 1) h
    simp only [List.map_cons, List.length_cons, hrec]
    rw [List.range'_succ]
  · rw [if_neg (by intro hc; exact hi hc.2)]
    simp
termination_by words.length - i
decreasing_by omega

/-! ## Claims about the chunker -/

/-- Claim C3, counterexample: with `window_words = 1, overlap_words = 1`
(precondition violated) `chunkText` does **not** signal an error — the
source loop's cursor step `W - O` is zero, so the loop never terminates on
the one-word text `"a"`: no amount of fuel completes it. -/
theorem c3_counterexample : chunkLoopDiverges "a" 1 1 := by
  intro fuel idx
  exact chunkSlicesFuel_none (splitWs "a") 1 1 (by omega) fuel 0 idx (by decide)

/-- Claim C3, amended: `chunkText` performs no validation of its
parameters and never signals an error.  Under the precondition
`overlap_words < window_words` the loop terminates, with fuel
`words.length + 1` sufficient, and returns the finite chunk-slice
sequence; when `overlap_words ≥ window_words` (which subsumes
`window_words = 0`) the loop never terminates instead of erroring. -/
theorem c3_theorem (words : List String) (W O : Nat) (h : O < W) :
    chunkSlicesFuel (words.length + 1) words W O 0 0 =
      some (chunkSlices words W O) := by
  rw [chunkSlicesFuel_eq_chunksFrom words W O h (words.length + 1) 0 0 (by omega),
    chunkSlices_eq words W O h]

theorem c3_witness :
    (1 : Nat) < 2 ∧
      chunkSlicesFuel ((["a"] : List String).length + 1) ["a"] 2 1 0 0 =
        some (chunkSlices ["a"] 2 1) :=
  ⟨by omega, c3_theorem ["a"] 2 1 (by omega)⟩

/-- Claim C10: for every input string, including the empty string,
`chunkText` returns a non-empty chunk list (JavaScript
`split(/\s+/)` yields at least one, possibly empty, word, so the loop
body executes at least once).  Stated under the precondition
`overlap_words < window_words`, without which the source loop does not
return at all. -/
theorem c10_theorem (text : String) (W O : Nat) (h : O < W) :
    chunkText text W O ≠ [] := by
  unfold chunkText
  rw [chunkSlices_eq _ W O h]
  have h0 : 0 < (splitWs text).length :=
    List.length_pos.2 (splitWs_ne_nil text)
  rw [chunksFrom.eq_def, if_pos ⟨h, h0⟩]
  simp

theorem c10_witness : (128 : Nat) < 800 ∧ chunkText "" 800 128 ≠ [] :=
  ⟨by decide, c10_theorem "" 800 128 (by decide)⟩

/-- Claim C2, counterexample: `chunkText` on the empty text with the
default parameters returns **one** chunk (with empty text and summary),
not zero chunks: JavaScript `"".split(/\s+/)` is `[""]`, so the loop body
runs once. -/
theorem c2_counterexample : chunkText "" 800 128 = [⟨0, "", ""⟩] := by
  decide

/-- Claim C9: a text of exactly 1000 words with `W = 800, O = 128`
produces exactly 2 chunks: chunk 0 over `words[0:800]`, and chunk 1
starting at word index `544 = max(0, 672 - 128)` covering
`words[544:1000]`, i.e. 456 words. -/
theorem c9_theorem (words : List String) (h : words.length = 1000) :
    chunkSlices words 800 128 =
      [(0, words.take 800), (1, words.drop 544)] ∧
      (words.drop 544).length = 456 := by
  have h1 : (128 : Nat) < 800 := by omega
  constructor
  · rw [chunkSlices_eq words 800 128 h1]
    rw [chunksFrom.eq_def, if_pos ⟨h1, by omega⟩]
    have e1 : (0 : Nat) + (800 - 128) = 672 := by norm_num
    have e2 : (0 : Nat) - 128 = 0 := by norm_num
    rw [e1, e2, List.drop_zero]
    rw [chunksFrom.eq_def, if_pos ⟨h1, by omega⟩]
    have e3 : (672 : Nat) - 128 = 544 := by norm_num
    have e4 : (672 : Nat) + (800 - 128) = 1344 := by norm_num
    rw [e3, e4]
    rw [chunksFrom.eq_def, if_neg (by intro hc; omega)]
    have e5 : (words.drop 544).take 800 = words.drop 544 :=
      List.take_of_length_le (by rw [List.length_drop]; omega)
    rw [e5]
  · rw [List.length_drop]; omega

theorem c9_witness :
    (List.replicate 1000 "w").length = 1000 ∧
      (chunkSlices (List.replicate 1000 "w") 800 128 =
        [(0, (List.replicate 1000 "w").take 800),
         (1, (List.replicate 1000 "w").drop 544)] ∧
       ((List.replicate 1000 "w").drop 544).length = 456) :=
  ⟨by simp, c9_theorem (List.replicate 1000 "w") (by simp)⟩

/-- Claim C5, counterexample: for `words = [a,b,c,d,e]`, `W = 3, O = 1`,
chunks 0 and 1 both exist but the last `O = 1` words of chunk 0 (`[c]`,
ending at word 2) differ from the first `O` words of the slice feeding
chunk 1 (`[b]`, starting at the clamped index `max(0, 2 - 2·1) = 1`): the
claimed overlap equality fails for the pair `(0, 1)` because chunk 0's
window start is not pulled back. -/
theorem c5_counterexample :
    1 < (chunkSlices ["a", "b", "c", "d", "e"] 3 1).length ∧
      lastN 1 (sliceOf (chunkSlices ["a", "b", "c", "d", "e"] 3 1) 0) ≠
        (sliceOf (chunkSlices ["a", "b", "c", "d", "e"] 3 1) 1).take 1 := by
  decide

/-- Claim C5, amended: under `O < W` the emitted chunk indices are exactly
`0..n-1`, contiguous and strictly increasing in emission order; and for
every adjacent pair `k, k+1` that both exist **and** whose pulled-back
window start is not clamped at zero, i.e. `O ≤ k·(W-O)` (in particular
every `k ≥ 1` when `2·O ≤ W`; for `k = 0` with `O > 0` the equality fails
in general), the last `O` words of chunk `k` equal the first `O` words of
the slice feeding chunk `k+1`. -/
theorem c5_theorem (words : List String) (W O : Nat) (h : O < W) :
    (chunkSlices words W O).map Prod.fst =
      List.range (chunkSlices words W O).length ∧
    ∀ k, O ≤ k * (W - O) → k + 1 < (chunkSlices words W O).length →
      lastN O (sliceOf (chunkSlices words W O) k) =
        (sliceOf (chunkSlices words W O) (k + 1)).take O := by
  rw [chunkSlices_eq words W O h]
  constructor
  · rw [chunksFrom_map_fst words W O 0 0 h, List.range_eq_range']
  · intro k hO hk1
    have hk : k < (chunksFrom words W O 0 0).length := by omega
    have hs := chunksFrom_getD words W O 0 0 k h hk
    have hs' := chunksFrom_getD words W O 0 0 (k + 1) h hk1
    have hlen := (chunksFrom_length_iff words W O 0 0 (k + 1) h).1 hk1
    have hmul : (k + 1) * (W - O) = k * (W - O) + (W - O) := Nat.succ_mul _ _
    simp only [Nat.zero_add, hmul] at hs hs' hlen
    unfold sliceOf
    rw [hs, hs']
    simp only
    have hlenk : ((words.drop (k * (W - O) - O)).take W).length = W := by
      rw [List.length_take, List.length_drop]
      omega
    unfold lastN
    rw [hlenk, List.drop_take, List.drop_drop]
    have e1 : W - (W - O) = O := by omega
    have e2 : k * (W - O) - O + (W - O) = k * (W - O) + (W - O) - O := by
      omega
    rw [e1, e2, List.take_take, Nat.min_eq_left (Nat.le_of_lt h)]

theorem c5_witness :
    ((1 : Nat) < 3 ∧ (1 : Nat) ≤ 1 * (3 - 1) ∧
      1 + 1 < (chunkSlices ["a", "b", "c", "d", "e"] 3 1).length) ∧
      lastN 1 (sliceOf (chunkSlices ["a", "b", "c", "d", "e"] 3 1) 1) =
        (sliceOf (chunkSlices ["a", "b", "c", "d", "e"] 3 1) 2).take 1 :=
  ⟨⟨by decide, by decide, by decide⟩,
    ( c5_theorem ["a", "b", "c", "d", "e"] 3 1 (by decide)).2 1 (by decide)
      (by decide)⟩

/-! ## Claims about the vector sink -/

theorem pgInsertLoop_ok (b : Nat) (vs : List Vec) :
    ∀ rows, (∀ v ∈ vs, v.embedding.length = b) →
      pgInsertLoop b rows vs = .ok (vs.foldl applyUpsert rows) := by
  induction vs with
  | nil => intro rows _; rfl
  | cons v vs ih =>
    intro rows hall
    have hv := hall v (by simp)
    simp only [pgInsertLoop, if_pos hv, List.foldl_cons]
    exact ih _ (fun w hw => hall w (by simp [hw]))

theorem pgInsertLoop_err (b : Nat) (vs : List Vec) :
    ∀ rows, (∃ v ∈ vs, v.embedding.length ≠ b) →
      isOkE (pgInsertLoop b rows vs) = false := by
  induction vs with
  | nil => intro rows hex; simp at hex
  | cons v vs ih =>
    intro rows hex
    by_cases hv : v.embedding.length = b
    · simp only [pgInsertLoop, if_pos hv]
      rcases hex with ⟨w, hw, hne⟩
      rcases List.mem_cons.1 hw with rfl | htail
      · exact absurd hv hne
      · exact ih _ ⟨w, htail, hne⟩
    · simp [pgInsertLoop, if_neg hv, isOkE]

/-- Claim C4, counterexample: `upsertPgVectors` performs no validation
against its `dimension` argument.  With a backing table of dimension 3 and
configured dimension 2: a vector of length 3 (a mismatch with the
configured dimension) is written successfully, and a vector of length 2
(matching the configured dimension) fails — acceptance depends only on the
backing store's column dimension, never on the `dimension` parameter. -/
theorem c4_counterexample :
    upsertPgVectors 3 [⟨"a", [1, 2, 3]⟩] 2 ⟨[]⟩ =
      (.ok (), ⟨[("a", [1, 2, 3])]⟩) ∧
    (upsertPgVectors 3 [⟨"a", [1, 2]⟩] 2 ⟨[]⟩).1 =
      .error "vector dimension mismatch" := by
  constructor
  · decide
  · decide

/-- Claim C4, amended: `upsertPgVectors` does not itself validate vector
dimensions — its `dimension` argument is never read (first conjunct: the
result is independent of it).  All inserts run inside one
`BEGIN`/`COMMIT` transaction: if any vector's length differs from the
backing column dimension, the batch fails and `ROLLBACK` leaves the table
exactly as before the call (no partial write); if every length matches,
the whole batch is committed. -/
theorem c4_theorem (b : Nat) (vs : List Vec) (d1 d2 : Nat) (pg : PgState) :
    upsertPgVectors b vs d1 pg = upsertPgVectors b vs d2 pg ∧
    ((∃ v ∈ vs, v.embedding.length ≠ b) →
      isOkE (upsertPgVectors b vs d1 pg).1 = false ∧
        (upsertPgVectors b vs d1 pg).2 = pg) ∧
    ((∀ v ∈ vs, v.embedding.length = b) →
      upsertPgVectors b vs d1 pg =
        (.ok (), ⟨vs.foldl applyUpsert pg.committed⟩)) := by
  refine ⟨rfl, ?_, ?_⟩
  · intro hex
    have hne : ¬ vs.length = 0 := by
      rcases hex with ⟨v, hv, _⟩
      cases vs with
      | nil => simp at hv
      | cons _ _ => simp
    have herr := pgInsertLoop_err b vs pg.committed hex
    unfold upsertPgVectors
    rw [if_neg hne]
    cases hloop : pgInsertLoop b pg.committed vs with
    | ok rows => rw [hloop] at herr; simp [isOkE] at herr
    | error e => simp [hloop, isOkE]
  · intro hall
    by_cases h0 : vs.length = 0
    · have : vs = [] := List.length_eq_zero.1 h0
      subst this
      simp [upsertPgVectors]
    · unfold upsertPgVectors
      rw [if_neg h0, pgInsertLoop_ok b vs pg.committed hall]

theorem c4_witness :
    (∃ v ∈ [(⟨"a", [1, 2]⟩ : Vec)], v.embedding.length ≠ 3) ∧
      (isOkE (upsertPgVectors 3 [⟨"a", [1, 2]⟩] 1536 ⟨[("b", [5, 5, 5])]⟩).1 =
        false ∧
      (upsertPgVectors 3 [⟨"a", [1, 2]⟩] 1536 ⟨[("b", [5, 5, 5])]⟩).2 =
        ⟨[("b", [5, 5, 5])]⟩) :=
  ⟨by decide,
    (c4_theorem 3 [⟨"a", [1, 2]⟩] 1536 7 ⟨[("b", [5, 5, 5])]⟩).2.1 (by decide)⟩

/-! ## Claims about the normalizer -/

/-- Claim C8, counterexample: the markup (XML) branch of
`parseDocumentText` has no try/catch, so a parser failure on malformed
markup input propagates as an error — the function is **not** total and
does not fall back to returning the raw bytes for this branch. -/
theorem c8_counterexample :
    parseDocumentText
        (mkEnv (.ok "<") (.error "bad xml") (.ok "") (.ok "")
          (fun _ => .ok []) false false (.ok ()) 0 800 128 0)
        "<" "xml" "u" =
      .error "bad xml" := by
  decide

/-- Claim C8, amended: the structured-record (JSON) and tabular (CSV)
branches fall back on parse failure, ultimately returning the raw bytes,
so `parseDocumentText` is total whenever the markup branch is not
selected; but when the markup condition holds the result is exactly the
XML parser's result, so a markup parse failure propagates as an error
rather than falling back. -/
theorem c8_theorem (env : Env) (raw mime url : String) :
    (xmlCond mime url = true →
      parseDocumentText env raw mime url = env.xmlParse raw) ∧
    (xmlCond mime url = false →
      isOkE (parseDocumentText env raw mime url) = true) ∧
    (xmlCond mime url = false →
      (jsonCond mime url = true → isOkE (env.jsonParse raw) = false) →
      (csvCond mime url = true → isOkE (env.csvParse raw) = false) →
      parseDocumentText env raw mime url = .ok raw) := by
  refine ⟨?_, ?_, ?_⟩
  · intro hx
    simp [parseDocumentText, hx]
  · intro hx
    simp only [parseDocumentText, hx, Bool.false_eq_true, if_false]
    split
    · simp [isOkE]
    · split
      · simp [isOkE]
      · simp [isOkE]
  · intro hx hj hc
    simp only [parseDocumentText, hx, Bool.false_eq_true, if_false]
    have hjson : (if jsonCond mime url then
        match env.jsonParse raw with
        | .ok t => some t
        | .error _ => none
      else none) = none := by
      by_cases hjc : jsonCond mime url = true
      · rw [if_pos hjc]
        cases hjp : env.jsonParse raw with
        | ok t =>
          have hfalse := hj hjc
          rw [hjp] at hfalse
          simp [isOkE] at hfalse
        | error e => simp
      · simp [hjc]
    have hcsv : (if csvCond mime url then
        match env.csvParse raw with
        | .ok t => some t
        | .error _ => none
      else none) = none := by
      by_cases hcc : csvCond mime url = true
      · rw [if_pos hcc]
        cases hcp : env.csvParse raw with
        | ok t =>
          have hfalse := hc hcc
          rw [hcp] at hfalse
          simp [isOkE] at hfalse
        | error e => simp
      · simp [hcc]
    rw [hjson, hcsv]

theorem c8_witness :
    (xmlCond "json" "u" = false ∧ jsonCond "json" "u" = true ∧
      isOkE ((mkEnv (.ok "") (.error "ex") (.error "ej") (.error "ec")
        (fun _ => .ok []) false false (.ok ()) 0 800 128 0).jsonParse
          "notjson") = false) ∧
      parseDocumentText
          (mkEnv (.ok "") (.error "ex") (.error "ej") (.error "ec")
            (fun _ => .ok []) false false (.ok ()) 0 800 128 0)
          "notjson" "json" "u" =
        .ok "notjson" :=
  ⟨by decide,
    (c8_theorem
        (mkEnv (.ok "") (.error "ex") (.error "ej") (.error "ec")
          (fun _ => .ok []) false false (.ok ()) 0 800 128 0)
        "notjson" "json" "u").2.2 (by decide) (fun _ => by decide)
      (fun hcc => absurd hcc (by decide))⟩

/-! ## Lemmas about the pipeline -/

theorem lookup_assocPut (l : List (String × String)) (k v : String) :
    List.lookup k (assocPut l k v) = some v := by
  induction l with
  | nil => simp [assocPut]
  | cons p ps ih =>
    rcases p with ⟨p1, p2⟩
    by_cases hp : p1 = k
    · subst hp
      simp [assocPut, List.lookup]
    · simp only [assocPut]
      rw [if_neg hp]
      have hbeq : (k == p1) = false := by
        simp only [beq_eq_false_iff_ne, ne_eq]
        exact fun hk => hp hk.symm
      simp only [List.lookup, hbeq]
      exact ih

theorem getD_map_mkChunk (cs : List (Nat × List String)) (j : Nat)
    (hj : j < cs.length) :
    (cs.map mkChunk).getD j ⟨0, "", ""⟩ = mkChunk (cs.getD j (0, [])) := by
  rw [List.getD_eq_getElem?_getD, List.getD_eq_getElem?_getD,
    List.getElem?_map, List.getElem?_eq_getElem hj]
  rfl

theorem chunkText_getD_chunkIndex (text : String) (W O : Nat) (h : O < W)
    (j : Nat) (hj : j < (chunkText text W O).length) :
    ((chunkText text W O).getD j ⟨0, "", ""⟩).chunkIndex = j := by
  unfold chunkText at hj ⊢
  rw [chunkSlices_eq _ W O h] at hj ⊢
  have hj' : j < (chunksFrom (splitWs text) W O 0 0).length := by
    simpa using hj
  rw [getD_map_mkChunk _ j hj', chunksFrom_getD (splitWs text) W O 0 0 j h hj']
  simp [mkChunk]

theorem chunkText_empty (W O : Nat) (h : O < W) :
    chunkText "" W O = [⟨0, "", ""⟩] := by
  have hs : splitWs "" = [""] := rfl
  unfold chunkText
  rw [hs, chunkSlices_eq [""] W O h]
  rw [chunksFrom.eq_def, if_pos ⟨h, by simp⟩]
  rw [chunksFrom.eq_def, if_neg (by simp; omega)]
  have ht : (([""] : List String).drop (0 - O)).take W = [""] := by
    simp only [Nat.zero_sub, List.drop_zero]
    exact List.take_of_length_le (by simp; omega)
  rw [ht]
  decide

theorem embedLoop_first_error (f : Nat → Except String (List Int))
    (p e : String) :
    ∀ (cs : List Chunk) (k : Nat), k < cs.length →
      (∀ j, j < k → isOkE (f ((cs.getD j ⟨0, "", ""⟩).chunkIndex)) = true) →
      f ((cs.getD k ⟨0, "", ""⟩).chunkIndex) = .error e →
      embedLoop f p cs = (.error e, k + 1) := by
  intro cs
  induction cs with
  | nil => intro k hk; simp at hk
  | cons c rest ih =>
    intro k hk hbefore hfail
    cases k with
    | zero =>
      simp only [List.getD_cons_zero] at hfail
      simp [embedLoop, hfail]
    | succ k' =>
      have hc0 : isOkE (f c.chunkIndex) = true := by
        have := hbefore 0 (by omega)
        simpa using this
      cases hf0 : f c.chunkIndex with
      | error e0 => rw [hf0] at hc0; simp [isOkE] at hc0
      | ok emb =>
        have hrec := ih k' (by simpa using hk)
          (fun j hj => by
            have := hbefore (j + 1) (by omega)
            simpa using this)
          (by simpa using hfail)
        simp [embedLoop, hf0, hrec]

theorem processResource_skip (env : Env) (d r fmt url raw : String)
    (st : PipelineState) (h1 : url ≠ "") (h2 : env.fetch url = .ok raw)
    (hs : List.lookup (sanitize (d ++ "__" ++ r)) st.checksums =
      some (env.hash raw)) :
    processResource env d r fmt url st = (.skippedRes, st) := by
  simp only [processResource]
  rw [if_neg h1]
  simp only [h2]
  rw [if_pos hs]

/-! ## Claims about the pipeline -/

/-- Claim C1, counterexample: with the Vector Sink succeeding and the
Graph Sink failing, the checksum record **is** updated: starting with no
stored digest, `processResource` ends in the error result for the graph
failure, yet the final state stores the new digest for the resource key
(and the vector row is committed).  The previously stored digest is not
preserved, contradicting the claimed commit-after-sinks ordering. -/
theorem c1_counterexample :
    processResource
        (mkEnv (.ok "hello world") (.ok "") (.ok "") (.ok "")
          (fun _ => .ok [1, 2]) true true (.error "neo down") 2 800 128 2)
        "d" "r" "" "u" ⟨[], ⟨[]⟩, [], 0⟩ =
      (.errRes "neo down",
        ⟨[("d__r", "hello world")], ⟨[("d:r:chunk:0", [1, 2])]⟩, [], 1⟩) := by
  decide

/-- Claim C1, amended: the digest record is written immediately after
download and change detection, **before** embedding and both sinks:
whenever processing gets past the change check (previous digest differs),
the resulting state stores the new digest for the resource key regardless
of the outcome — embedding failure, sink failure, or success — and a
subsequent run on the same content therefore finds the digest equal and
returns `SKIPPED` instead of reprocessing. -/
theorem c1_theorem (env : Env) (d r fmt url raw : String)
    (st : PipelineState) (h1 : url ≠ "") (h2 : env.fetch url = .ok raw)
    (h3 : List.lookup (sanitize (d ++ "__" ++ r)) st.checksums ≠
      some (env.hash raw)) :
    List.lookup (sanitize (d ++ "__" ++ r))
        (processResource env d r fmt url st).2.checksums =
      some (env.hash raw) ∧
    processResource env d r fmt url (processResource env d r fmt url st).2 =
      (.skippedRes, (processResource env d r fmt url st).2) := by
  have hck : List.lookup (sanitize (d ++ "__" ++ r))
      (processResource env d r fmt url st).2.checksums =
      some (env.hash raw) := by
    simp only [processResource]
    rw [if_neg h1]
    simp only [h2]
    rw [if_neg h3]
    split
    · exact lookup_assocPut _ _ _
    · split
      · exact lookup_assocPut _ _ _
      · split
        · exact lookup_assocPut _ _ _
        · split
          · exact lookup_assocPut _ _ _
          · exact lookup_assocPut _ _ _
  exact ⟨hck, processResource_skip env d r fmt url raw _ h1 h2 hck⟩

theorem c1_witness :
    (("u" : String) ≠ "" ∧
      (mkEnv (.ok "x") (.ok "") (.ok "") (.ok "") (fun _ => .ok [1, 2])
        true true (.error "down") 2 800 128 2).fetch "u" = .ok "x") ∧
    List.lookup "d__r"
        (processResource
          (mkEnv (.ok "x") (.ok "") (.ok "") (.ok "") (fun _ => .ok [1, 2])
            true true (.error "down") 2 800 128 2)
          "d" "r" "" "u" ⟨[], ⟨[]⟩, [], 0⟩).2.checksums = some "x" ∧
    processResource
        (mkEnv (.ok "x") (.ok "") (.ok "") (.ok "") (fun _ => .ok [1, 2])
          true true (.error "down") 2 800 128 2)
        "d" "r" "" "u"
        (processResource
          (mkEnv (.ok "x") (.ok "") (.ok "") (.ok "") (fun _ => .ok [1, 2])
            true true (.error "down") 2 800 128 2)
          "d" "r" "" "u" ⟨[], ⟨[]⟩, [], 0⟩).2 =
      (.skippedRes,
        (processResource
          (mkEnv (.ok "x") (.ok "") (.ok "") (.ok "") (fun _ => .ok [1, 2])
            true true (.error "down") 2 800 128 2)
          "d" "r" "" "u" ⟨[], ⟨[]⟩, [], 0⟩).2) :=
  ⟨⟨by decide, by decide⟩,
    (c1_theorem
      (mkEnv (.ok "x") (.ok "") (.ok "") (.ok "") (fun _ => .ok [1, 2])
        true true (.error "down") 2 800 128 2)
      "d" "r" "" "u" "x" ⟨[], ⟨[]⟩, [], 0⟩ (by decide) (by decide)
      (by decide)).1,
    (c1_theorem
      (mkEnv (.ok "x") (.ok "") (.ok "") (.ok "") (fun _ => .ok [1, 2])
        true true (.error "down") 2 800 128 2)
      "d" "r" "" "u" "x" ⟨[], ⟨[]⟩, [], 0⟩ (by decide) (by decide)
      (by decide)).2⟩

/-- Claim C7: (1) when the stored digest for the resource key equals the
digest of the downloaded content, the resource is skipped with no state
change (zero additional vector or graph writes); (2) after any successful
run, running `processResource` again with the same environment yields
`SKIPPED` with no state change; (3) a resource with no prior digest
record is treated as changed and processed (the result is never
`SKIPPED`). -/
theorem c7_theorem (env : Env) (d r fmt url : String) (st : PipelineState) :
    (∀ raw, url ≠ "" → env.fetch url = .ok raw →
      List.lookup (sanitize (d ++ "__" ++ r)) st.checksums =
        some (env.hash raw) →
      processResource env d r fmt url st = (.skippedRes, st)) ∧
    (∀ did n st', processResource env d r fmt url st = (.okRes did n, st') →
      processResource env d r fmt url st' = (.skippedRes, st')) ∧
    (∀ raw, url ≠ "" → env.fetch url = .ok raw →
      List.lookup (sanitize (d ++ "__" ++ r)) st.checksums = none →
      (processResource env d r fmt url st).1 ≠ .skippedRes) := by
  refine ⟨?_, ?_, ?_⟩
  · intro raw h1 h2 hs
    exact processResource_skip env d r fmt url raw st h1 h2 hs
  · intro did n st' h
    by_cases h1 : url = ""
    · rw [processResource, if_pos h1] at h
      simp at h
    · simp only [processResource] at h
      rw [if_neg h1] at h
      cases hf : env.fetch url with
      | error e => rw [hf] at h; simp at h
      | ok raw =>
        rw [hf] at h
        simp only [] at h
        by_cases hck : List.lookup (sanitize (d ++ "__" ++ r)) st.checksums
            = some (env.hash raw)
        · rw [if_pos hck] at h
          simp at h
        · rw [if_neg hck] at h
          split at h
          · simp at h
          · split at h
            · simp at h
            · split at h
              · simp at h
              · split at h
                · simp at h
                · simp only [Prod.mk.injEq] at h
                  obtain ⟨-, hstate⟩ := h
                  subst hstate
                  exact processResource_skip env d r fmt url raw _ h1 hf
                    (lookup_assocPut _ _ _)
  · intro raw h1 h2 hnone
    simp only [processResource]
    rw [if_neg h1]
    simp only [h2]
    rw [if_neg (by rw [hnone]; simp)]
    split
    · simp
    · split
      · simp
      · split
        · simp
        · split
          · simp
          · simp

theorem c7_witness :
    (List.lookup "d__r"
        (⟨[], ⟨[]⟩, [], 0⟩ : PipelineState).checksums = none ∧
      processResource
          (mkEnv (.ok "x") (.ok "") (.ok "") (.ok "") (fun _ => .ok [1, 2])
            true true (.ok ()) 2 800 128 2)
          "d" "r" "" "u" ⟨[], ⟨[]⟩, [], 0⟩ =
        (.okRes "d:r" 1,
          ⟨[("d__r", "x")], ⟨[("d:r:chunk:0", [1, 2])]⟩, [("d:r", 1)], 1⟩)) ∧
    processResource
        (mkEnv (.ok "x") (.ok "") (.ok "") (.ok "") (fun _ => .ok [1, 2])
          true true (.ok ()) 2 800 128 2)
        "d" "r" "" "u"
        ⟨[("d__r", "x")], ⟨[("d:r:chunk:0", [1, 2])]⟩, [("d:r", 1)], 1⟩ =
      (.skippedRes,
        ⟨[("d__r", "x")], ⟨[("d:r:chunk:0", [1, 2])]⟩, [("d:r", 1)], 1⟩) ∧
    (processResource
        (mkEnv (.ok "x") (.ok "") (.ok "") (.ok "") (fun _ => .ok [1, 2])
          true true (.ok ()) 2 800 128 2)
        "d" "r" "" "u" ⟨[], ⟨[]⟩, [], 0⟩).1 ≠ .skippedRes :=
  ⟨⟨by decide, by decide⟩,
    (c7_theorem
        (mkEnv (.ok "x") (.ok "") (.ok "") (.ok "") (fun _ => .ok [1, 2])
          true true (.ok ()) 2 800 128 2)
        "d" "r" "" "u" ⟨[], ⟨[]⟩, [], 0⟩).2.1 "d:r" 1
      ⟨[("d__r", "x")], ⟨[("d:r:chunk:0", [1, 2])]⟩, [("d:r", 1)], 1⟩
      (by decide),
    (c7_theorem
        (mkEnv (.ok "x") (.ok "") (.ok "") (.ok "") (fun _ => .ok [1, 2])
          true true (.ok ()) 2 800 128 2)
        "d" "r" "" "u" ⟨[], ⟨[]⟩, [], 0⟩).2.2 "x" (by decide) (by decide)
      (by decide)⟩

/-- Claim C6: when the sequential embedding loop hits its first failure at
chunk index `k`, the resource aborts with the failure result carrying that
error; the vectors already built for earlier chunks are discarded (the
vector table and graph are exactly as before — no vector for this
resource is written), only the digest record and the count of embedding
calls (`k + 1`) change; and the batch loop still produces one result per
resource, so other resources in the batch are unaffected. -/
theorem c6_theorem (env : Env) (d r fmt url raw text : String)
    (st : PipelineState) (k : Nat) (e : String)
    (h1 : url ≠ "") (h2 : env.fetch url = .ok raw)
    (h3 : List.lookup (sanitize (d ++ "__" ++ r)) st.checksums ≠
      some (env.hash raw))
    (h4 : parseDocumentText env raw fmt url = .ok text)
    (hWO : env.O < env.W)
    (h5 : k < (chunkText text env.W env.O).length)
    (h6 : ∀ j, j < k →
      isOkE (env.embed (sanitize (d ++ "__" ++ r)) j) = true)
    (h7 : env.embed (sanitize (d ++ "__" ++ r)) k = .error e) :
    processResource env d r fmt url st =
      (.errRes e,
        ⟨assocPut st.checksums (sanitize (d ++ "__" ++ r)) (env.hash raw),
          st.pg, st.graph, st.embedCalls + (k + 1)⟩) ∧
    ∀ (rs : List ResourceDesc) (st0 : PipelineState),
      ((processBatch env rs st0).1).length = rs.length := by
  constructor
  · have hembed : embedLoop (env.embed (sanitize (d ++ "__" ++ r)))
        (d ++ ":" ++ r) (chunkText text env.W env.O) = (.error e, k + 1) := by
      apply embedLoop_first_error
      · exact h5
      · intro j hj
        rw [chunkText_getD_chunkIndex text env.W env.O hWO j (by omega)]
        exact h6 j hj
      · rw [chunkText_getD_chunkIndex text env.W env.O hWO k h5]
        exact h7
    simp only [processResource]
    rw [if_neg h1]
    simp only [h2]
    rw [if_neg h3]
    simp only [h4, hembed]
  · intro rs
    induction rs with
    | nil => intro st0; rfl
    | cons hd tl ih =>
      intro st0
      simp only [processBatch]
      cases hres : processResource env hd.datasetId hd.resourceId hd.fmt
          hd.url st0 with
      | mk res1 st1 =>
        cases hrest : processBatch env tl st1 with
        | mk resRest st2 =>
          have hlen := ih st1
          rw [hrest] at hlen
          simp [hlen]

theorem c6_witness :
    ((2 : Nat) < (chunkText "a b c d e f" 2 0).length ∧
      (mkEnv (.ok "a b c d e f") (.ok "") (.ok "") (.ok "")
        (fun j => if j < 2 then .ok [1, 2] else .error "boom")
        true true (.ok ()) 2 2 0 2).embed "d__r" 2 = .error "boom") ∧
    processResource
        (mkEnv (.ok "a b c d e f") (.ok "") (.ok "") (.ok "")
          (fun j => if j < 2 then .ok [1, 2] else .error "boom")
          true true (.ok ()) 2 2 0 2)
        "d" "r" "" "u" ⟨[], ⟨[]⟩, [], 0⟩ =
      (.errRes "boom", ⟨[("d__r", "a b c d e f")], ⟨[]⟩, [], 3⟩) ∧
    ((processBatch
        (mkEnv (.ok "a b c d e f") (.ok "") (.ok "") (.ok "")
          (fun j => if j < 2 then .ok [1, 2] else .error "boom")
          true true (.ok ()) 2 2 0 2)
        [⟨"d", "r", "", "u"⟩] ⟨[], ⟨[]⟩, [], 0⟩).1).length = 1 :=
  ⟨⟨by decide, by decide⟩,
    (c6_theorem
        (mkEnv (.ok "a b c d e f") (.ok "") (.ok "") (.ok "")
          (fun j => if j < 2 then .ok [1, 2] else .error "boom")
          true true (.ok ()) 2 2 0 2)
        "d" "r" "" "u" "a b c d e f" "a b c d e f" ⟨[], ⟨[]⟩, [], 0⟩ 2 "boom"
        (by decide) (by decide) (by decide) (by decide) (by decide)
        (by decide) (by decide) (by decide)).1,
    (c6_theorem
        (mkEnv (.ok "a b c d e f") (.ok "") (.ok "") (.ok "")
          (fun j => if j < 2 then .ok [1, 2] else .error "boom")
          true true (.ok ()) 2 2 0 2)
        "d" "r" "" "u" "a b c d e f" "a b c d e f" ⟨[], ⟨[]⟩, [], 0⟩ 2 "boom"
        (by decide) (by decide) (by decide) (by decide) (by decide)
        (by decide) (by decide) (by decide)).2 [⟨"d", "r", "", "u"⟩]
      ⟨[], ⟨[]⟩, [], 0⟩⟩

/-- Claim C2, amended: processing an empty resource (downloaded content
`""`, no format hint) yields exactly **one** chunk with empty text, issues
exactly one embedding call, calls both configured sinks once (one vector
upserted, one document with one chunk node created), and returns the
success result with chunk count 1 — not zero chunks / zero calls /
`DONE(0)`. -/
theorem c2_theorem (env : Env) (d r : String) (st : PipelineState)
    (v : List Int)
    (h1 : env.fetch "u" = .ok "")
    (h2 : List.lookup (sanitize (d ++ "__" ++ r)) st.checksums ≠
      some (env.hash ""))
    (h3 : env.O < env.W)
    (h4 : env.embed (sanitize (d ++ "__" ++ r)) 0 = .ok v)
    (h5 : env.pgConfigured = true)
    (h6 : v.length = env.backendDim)
    (h7 : env.neoConfigured = true)
    (h8 : env.neoRun (d ++ ":" ++ r) = .ok ()) :
    processResource env d r "" "u" st =
      (.okRes (d ++ ":" ++ r) 1,
        ⟨assocPut st.checksums (sanitize (d ++ "__" ++ r)) (env.hash ""),
          ⟨applyUpsert st.pg.committed
            ⟨d ++ ":" ++ r ++ ":chunk:" ++ "0", v⟩⟩,
          st.graph ++ [(d ++ ":" ++ r, 1)], st.embedCalls + 1⟩) := by
  have hparse : parseDocumentText env "" "" "u" = .ok "" := by
    have hx : xmlCond "" "u" = false := by decide
    have hj : jsonCond "" "u" = false := by decide
    have hc : csvCond "" "u" = false := by decide
    simp [parseDocumentText, hx, hj, hc]
  have hchunks : chunkText "" env.W env.O = [⟨0, "", ""⟩] :=
    chunkText_empty env.W env.O h3
  have hembed : embedLoop (env.embed (sanitize (d ++ "__" ++ r)))
      (d ++ ":" ++ r) [⟨0, "", ""⟩] =
      (.ok [⟨d ++ ":" ++ r ++ ":chunk:" ++ "0", v⟩], 1) := by
    simp only [embedLoop, h4]
    rfl
  have hupsert : upsertPgVectors env.backendDim
      [⟨d ++ ":" ++ r ++ ":chunk:" ++ "0", v⟩] env.VDIM st.pg =
      (.ok (),
        ⟨applyUpsert st.pg.committed ⟨d ++ ":" ++ r ++ ":chunk:" ++ "0", v⟩⟩) := by
    simp only [upsertPgVectors]
    rw [if_neg (by simp)]
    simp only [pgInsertLoop]
    rw [if_pos h6]
  have hneo : createNeo4jNodes env (d ++ ":" ++ r) 1 st.graph =
      .ok (st.graph ++ [(d ++ ":" ++ r, 1)]) := by
    simp [createNeo4jNodes, h8]
  simp only [processResource]
  rw [if_neg (by decide : ¬("u" : String) = "")]
  simp only [h1]
  rw [if_neg h2]
  simp only [hparse, hchunks, hembed, h5, if_true, hupsert, h7]
  simp [hneo]

theorem c2_witness :
    ((mkEnv (.ok "") (.ok "") (.ok "") (.ok "") (fun _ => .ok [1, 2])
        true true (.ok ()) 2 800 128 2).fetch "u" = .ok "" ∧
      ((1 : Nat) < 800 → True) ∧ (128 : Nat) < 800) ∧
    processResource
        (mkEnv (.ok "") (.ok "") (.ok "") (.ok "") (fun _ => .ok [1, 2])
          true true (.ok ()) 2 800 128 2)
        "d" "r" "" "u" ⟨[], ⟨[]⟩, [], 0⟩ =
      (.okRes "d:r" 1,
        ⟨[("d__r", "")], ⟨[("d:r:chunk:0", [1, 2])]⟩, [("d:r", 1)], 1⟩) :=
  ⟨⟨by decide, fun _ => trivial, by decide⟩,
    c2_theorem
      (mkEnv (.ok "") (.ok "") (.ok "") (.ok "") (fun _ => .ok [1, 2])
        true true (.ok ()) 2 800 128 2)
      "d" "r" ⟨[], ⟨[]⟩, [], 0⟩ [1, 2] (by decide) (by decide) (by decide)
      (by decide) (by decide) (by decide) (by decide) (by decide)⟩
